import Mathlib

/-!
# A verification development for the `event_bus` repository

Shallow embedding of `src/event_bus/bus.py` (`class EventBus`).

Modelling choices, kept as close to the Python source as the logic allows:

* A Python handler (a function object) is a `Handler`: an `id` field models
  object identity (Python deduplicates set elements by identity/equality of
  the function object) and `name` models `func.__name__` (the declared name
  used by `remove_event` and `emit_only`).  The body of a handler is
  modelled separately by a behaviour map `behave : Nat → List Nat → Except String Unit`
  from handler identity to the outcome of calling it on an argument list
  (`.ok ()` for a normal return, `.error msg` for a raised exception), so
  that `Handler` keeps decidable equality.
* `*args, **kwargs` are modelled as one argument list `List Nat`.
* The two `defaultdict(set)` maps `_events` and `_async_events` are
  association lists `List (String × List Handler)`.  A Python `set` is a
  list of distinct elements whose order stands for the set's arbitrary
  iteration order.  `defaultdict` lookup of a missing key yields `[]`; the
  side effect of `defaultdict.__getitem__` inserting an empty set for a
  missing key is not modelled, because an empty entry is observationally
  inert (it contributes nothing to reads or to `Counter` sums).
* Emission is modelled by the trace of `Act`s it performs:
  `Act.launch h args` is `Thread(target=h, args=args).start()` and
  `Act.call h args` is the synchronous call `h(*args)`.  A raised
  exception in the synchronous loop aborts the loop and is returned as
  `some msg`; thread targets are fire-and-forget, so `behave` is never
  consulted for launched handlers.
* Methods that mutate `self` return the new state; `remove_event` returns
  the post-state together with the optionally raised exception message,
  because the Python method raises only before any assignment to `self`.
  The `EventDoesntExist` exception (defined in `event_bus/exceptions.py`)
  is carried as its message string.
-/

/-- A Python handler function: `id` models object identity, `name` models
`func.__name__`. -/
structure Handler where
  id : Nat
  name : String
deriving DecidableEq, Repr

/-- Argument lists passed through `*args` (and `**kwargs`). -/
abbrev Args := List Nat

/-- The behaviour of handler bodies: given a handler identity and the
arguments, the outcome of calling it (`.ok ()` normal return, `.error`
a raised exception). -/
abbrev Behave := Nat → Args → Except String Unit

/-- One observable step of a dispatch: starting a background thread for a
handler, or invoking a handler synchronously in the calling context. -/
inductive Act where
  | launch (h : Handler) (args : Args)
  | call (h : Handler) (args : Args)
deriving DecidableEq, Repr

/-- Association-list map from event names to handler lists, modelling one
`defaultdict(set)` field of `EventBus`. -/
abbrev EventMap := List (String × List Handler)

/-- `defaultdict` read: the set stored under `e`, or the empty set. -/
def lookupD (c : EventMap) (e : String) : List Handler :=
  match c with
  | [] => []
  | (k, w) :: rest => if k = e then w else lookupD rest e

/-- Store `v` under key `e` (replace the existing entry, else append),
modelling `d[e] = v` on a `dict`. -/
def setE (c : EventMap) (e : String) (v : List Handler) : EventMap :=
  match c with
  | [] => [(e, v)]
  | (k, w) :: rest => if k = e then (e, v) :: rest else (k, w) :: setE rest e v

/-- The state of an `EventBus` object: `_events` (synchronous handlers) and
`_async_events` (background handlers). -/
structure EventBus where
  events : EventMap
  async_events : EventMap
deriving DecidableEq, Repr

/-- `EventBus.__init__`: both maps empty. -/
def EventBus.init : EventBus := ⟨[], []⟩

/-- `EventBus._event_funcs(event)`: the synchronous handlers of `event`. -/
def EventBus.event_funcs (b : EventBus) (event : String) : List Handler :=
  lookupD b.events event

/-- `EventBus._async_event_funcs(event)`: the background handlers of `event`. -/
def EventBus.async_event_funcs (b : EventBus) (event : String) : List Handler :=
  lookupD b.async_events event

/-- `EventBus.add_event(func, event, thread)`: no-op if `func` is already in
either set for `event`; otherwise add it to the background set when
`thread` and to the synchronous set otherwise. -/
def EventBus.add_event (b : EventBus) (func : Handler) (event : String)
    (thread : Bool) : EventBus :=
  if func ∈ b.event_funcs event ∨ func ∈ b.async_event_funcs event then b
  else if thread then
    { b with async_events := setE b.async_events event (b.async_event_funcs event ++ [func]) }
  else
    { b with events := setE b.events event (b.event_funcs event ++ [func]) }

/-- A Python `Counter` keyed by event name. -/
abbrev EventCounter := List (String × Nat)

/-- `counter[k] = v`. -/
def cset (c : EventCounter) (k : String) (v : Nat) : EventCounter :=
  match c with
  | [] => [(k, v)]
  | (k0, v0) :: rest => if k0 = k then (k, v) :: rest else (k0, v0) :: cset rest k v

/-- `counter[k] += v` (missing keys count as `0`). -/
def cincr (c : EventCounter) (k : String) (v : Nat) : EventCounter :=
  match c with
  | [] => [(k, v)]
  | (k0, v0) :: rest => if k0 = k then (k, v0 + v) :: rest else (k0, v0) :: cincr rest k v

/-- `sum(counter.values())`. -/
def csum (c : EventCounter) : Nat := (c.map Prod.snd).sum

/-- `EventBus._subscribed_event_count()`: build a `Counter` holding, per
event, the size of its synchronous set, add the size of its background
set, and sum the values. -/
def EventBus.subscribed_event_count (b : EventBus) : Nat :=
  let counter := b.events.foldl (fun c p => cset c p.1 p.2.length) []
  let counter := b.async_events.foldl (fun c p => cincr c p.1 p.2.length) counter
  csum counter

/-- `EventBus.event_count` property: sugar for `_subscribed_event_count`. -/
def EventBus.event_count (b : EventBus) : Nat := b.subscribed_event_count

/-- The synchronous loop of `emit`: `for func in self._event_funcs(event): func(*args)`.
Returns the calls performed (each call is recorded when it begins) and the
first raised exception, which aborts the loop. -/
def runSync (behave : Behave) (args : Args) : List Handler → List Act × Option String
  | [] => ([], none)
  | f :: rest =>
    match behave f.id args with
    | .ok _ =>
      let (tr, err) := runSync behave args rest
      (Act.call f args :: tr, err)
    | .error msg => ([Act.call f args], some msg)

/-- `EventBus.emit(event, *args)`: create a thread per background handler,
start them all, then run the synchronous handlers in the calling context.
Returns the trace of actions and the exception propagated from the
synchronous loop, if any. -/
def EventBus.emit (b : EventBus) (behave : Behave) (event : String)
    (args : Args) : List Act × Option String :=
  let launches := (b.async_event_funcs event).map (fun f => Act.launch f args)
  let (calls, err) := runSync behave args (b.event_funcs event)
  (launches ++ calls, err)

/-- The `func_names` argument of `emit_only`: `Union[str, List[str]]`. -/
inductive FuncNames where
  | single (s : String)
  | many (l : List String)

/-- The `isinstance(func_names, str)` coercion at the top of `emit_only`. -/
def FuncNames.toList : FuncNames → List String
  | .single s => [s]
  | .many l => l

/-- The synchronous loop of `emit_only`: invoke only handlers whose
`__name__` is in `names`; exceptions abort the loop as in `emit`. -/
def runSyncOnly (behave : Behave) (names : List String) (args : Args) :
    List Handler → List Act × Option String
  | [] => ([], none)
  | f :: rest =>
    if f.name ∈ names then
      match behave f.id args with
      | .ok _ =>
        let (tr, err) := runSyncOnly behave names args rest
        (Act.call f args :: tr, err)
      | .error msg => ([Act.call f args], some msg)
    else runSyncOnly behave names args rest

/-- `EventBus.emit_only(event, func_names, *args)`: launch the background
handlers of `event` whose name is in `func_names`, then invoke the
synchronous handlers of `event` whose name is in `func_names`. -/
def EventBus.emit_only (b : EventBus) (behave : Behave) (event : String)
    (func_names : FuncNames) (args : Args) : List Act × Option String :=
  let names := func_names.toList
  let launches := ((b.async_event_funcs event).filter (fun f => f.name ∈ names)).map
    (fun f => Act.launch f args)
  let (calls, err) := runSyncOnly behave names args (b.event_funcs event)
  (launches ++ calls, err)

/-- A call to the `wrapper` produced by `EventBus.emit_after(event)` around a
function `f`: run `f(*args)`; on a normal return, `self.emit(event)` (no
arguments) and return the result; a raised exception propagates before the
emission. -/
def EventBus.emit_after_call {ρ : Type} (b : EventBus) (behave : Behave)
    (event : String) (f : Args → Except String ρ) (args : Args) :
    List Act × Except String ρ :=
  match f args with
  | .error msg => ([], .error msg)
  | .ok r =>
    let (tr, err) := b.emit behave event []
    match err with
    | none => (tr, .ok r)
    | some msg => (tr, .error msg)

/-- One pass of the removal loop of `remove_event`: iterate the stored set,
erase every handler named `fname` from the copy, and record whether any
matched. -/
def removePass (fname : String) : List Handler → List Handler → Bool →
    List Handler × Bool
  | [], copy, removed => (copy, removed)
  | f :: rest, copy, removed =>
    if f.name = fname then removePass fname rest (copy.erase f) true
    else removePass fname rest copy removed

/-- The message of the `EventDoesntExist` exception raised by `remove_event`. -/
def eventDoesntExistMsg (event : String) : String :=
  "function doesn\x27t exist inside event " ++ event ++ " "

/-- `EventBus.remove_event(func_name, event)`: filter the synchronous set of
`event` through the removal loop; if nothing matched, do the same on the
background set; if still nothing matched, raise `EventDoesntExist`,
otherwise store the filtered copy back.  Returns the post-state and the
raised exception message, if any. -/
def EventBus.remove_event (b : EventBus) (func_name event : String) :
    EventBus × Option String :=
  let (syncCopy, removed) :=
    removePass func_name (b.event_funcs event) (b.event_funcs event) false
  if removed then ({ b with events := setE b.events event syncCopy }, none)
  else
    let (asyncCopy, removed2) :=
      removePass func_name (b.async_event_funcs event) (b.async_event_funcs event) false
    if removed2 then
      ({ b with async_events := setE b.async_events event asyncCopy }, none)
    else (b, some (eventDoesntExistMsg event))

/-- The keys of an event map. -/
def mapKeys (c : EventMap) : List String := c.map Prod.fst

/-- Well-formedness of a reachable `EventBus` state: dictionary keys are
distinct, and for every event the stored synchronous and background sets,
taken together, hold distinct handlers (the Python sets cannot hold
duplicates, and `add_event` keeps the two sets of one event disjoint). -/
def EventBus.WF (b : EventBus) : Prop :=
  (mapKeys b.events).Nodup ∧ (mapKeys b.async_events).Nodup ∧
  (∀ p ∈ b.events, (b.event_funcs p.1 ++ b.async_event_funcs p.1).Nodup) ∧
  (∀ p ∈ b.async_events, (b.event_funcs p.1 ++ b.async_event_funcs p.1).Nodup)

instance (b : EventBus) : Decidable b.WF := by
  unfold EventBus.WF; infer_instance

/-- The handler an action is about. -/
def Act.handler : Act → Handler
  | .launch h _ => h
  | .call h _ => h

/-- `h` is touched (launched or called) somewhere in the trace `tr`. -/
def invokedIn (h : Handler) (tr : List Act) : Prop :=
  ∃ a ∈ tr, a.handler = h

/-! ### Association-map lemmas -/

@[simp] theorem mapKeys_nil : mapKeys [] = [] := rfl

@[simp] theorem mapKeys_cons (p : String × List Handler) (c : EventMap) :
    mapKeys (p :: c) = p.1 :: mapKeys c := rfl

@[simp] theorem lookupD_nil (e : String) : lookupD [] e = [] := rfl

theorem lookupD_cons (k : String) (w : List Handler) (c : EventMap) (e : String) :
    lookupD ((k, w) :: c) e = if k = e then w else lookupD c e := rfl

theorem setE_cons (k : String) (w : List Handler) (c : EventMap) (e : String)
    (v : List Handler) :
    setE ((k, w) :: c) e v = if k = e then (e, v) :: c else (k, w) :: setE c e v := rfl

theorem lookupD_setE_self (c : EventMap) (e : String) (v : List Handler) :
    lookupD (setE c e v) e = v := by
  induction c with
  | nil => simp [setE, lookupD]
  | cons p rest ih =>
    obtain ⟨k, w⟩ := p
    by_cases h : k = e <;> simp [setE_cons, lookupD_cons, h, ih]

theorem lookupD_setE_ne (c : EventMap) (e e2 : String) (v : List Handler)
    (h : e2 ≠ e) : lookupD (setE c e v) e2 = lookupD c e2 := by
  induction c with
  | nil => simp [setE, lookupD_cons, Ne.symm h]
  | cons p rest ih =>
    obtain ⟨k, w⟩ := p
    by_cases hk : k = e
    · subst hk
      simp [setE_cons, lookupD_cons, Ne.symm h]
    · simp [setE_cons, lookupD_cons, hk, ih]

theorem lookupD_not_mem (c : EventMap) (e : String) (h : e ∉ mapKeys c) :
    lookupD c e = [] := by
  induction c with
  | nil => rfl
  | cons p rest ih =>
    obtain ⟨k, w⟩ := p
    have hne : k ≠ e := fun hh => h (by simp [hh])
    have hrest : e ∉ mapKeys rest := fun hh => h (by simp [hh])
    simp [lookupD_cons, hne, ih hrest]

theorem mem_of_lookupD (c : EventMap) (e : String) (h : e ∈ mapKeys c) :
    (e, lookupD c e) ∈ c := by
  induction c with
  | nil => simp at h
  | cons p rest ih =>
    obtain ⟨k, w⟩ := p
    by_cases hk : k = e
    · subst hk; simp [lookupD_cons]
    · have h2 : e ∈ mapKeys rest := by
        rcases List.mem_cons.mp (by simpa using h) with h1 | h1
        · exact absurd h1.symm hk
        · exact h1
      rw [lookupD_cons, if_neg hk]
      exact List.mem_cons_of_mem _ (ih h2)

theorem mapKeys_setE (c : EventMap) (e : String) (v : List Handler) :
    mapKeys (setE c e v) =
      if e ∈ mapKeys c then mapKeys c else mapKeys c ++ [e] := by
  induction c with
  | nil => simp [setE]
  | cons p rest ih =>
    obtain ⟨k, w⟩ := p
    by_cases hk : k = e
    · subst hk; simp [setE_cons]
    · rw [setE_cons, if_neg hk]
      simp only [mapKeys_cons, ih]
      by_cases he : e ∈ mapKeys rest
      · simp [he, Ne.symm hk]
      · simp [he, Ne.symm hk]

theorem mapKeys_setE_nodup (c : EventMap) (e : String) (v : List Handler)
    (h : (mapKeys c).Nodup) : (mapKeys (setE c e v)).Nodup := by
  rw [mapKeys_setE]
  split
  · exact h
  · next he => simp [List.nodup_append, h, he]

/-! ### Sizes and the `Counter` computation -/

/-- The total number of handlers stored in one event map. -/
def sumLens (c : EventMap) : Nat := (c.map (fun p => p.2.length)).sum

@[simp] theorem sumLens_nil : sumLens [] = 0 := rfl

@[simp] theorem sumLens_cons (p : String × List Handler) (c : EventMap) :
    sumLens (p :: c) = p.2.length + sumLens c := rfl

theorem sumLens_setE (c : EventMap) (e : String) (v : List Handler) :
    sumLens (setE c e v) + (lookupD c e).length = sumLens c + v.length := by
  induction c with
  | nil => simp [setE]
  | cons p rest ih =>
    obtain ⟨k, w⟩ := p
    by_cases hk : k = e
    · subst hk; simp [setE_cons, lookupD_cons]; omega
    · rw [setE_cons, if_neg hk, lookupD_cons, if_neg hk]
      simp only [sumLens_cons]
      omega

@[simp] theorem csum_nil : csum [] = 0 := rfl

@[simp] theorem csum_cons (p : String × Nat) (c : EventCounter) :
    csum (p :: c) = p.2 + csum c := rfl

theorem csum_cincr (c : EventCounter) (k : String) (v : Nat) :
    csum (cincr c k v) = csum c + v := by
  induction c with
  | nil => simp [cincr]
  | cons p rest ih =>
    obtain ⟨k0, v0⟩ := p
    by_cases hk : k0 = k
    · subst hk; simp [cincr]; omega
    · rw [cincr, if_neg hk]
      simp only [csum_cons, ih]
      omega

theorem cset_fresh (c : EventCounter) (k : String) (v : Nat)
    (h : k ∉ c.map Prod.fst) : cset c k v = c ++ [(k, v)] := by
  induction c with
  | nil => rfl
  | cons p rest ih =>
    obtain ⟨k0, v0⟩ := p
    have hne : k0 ≠ k := fun hh => h (by simp [hh])
    have hrest : k ∉ rest.map Prod.fst := fun hh => h (by simp [hh])
    rw [cset, if_neg hne, ih hrest]
    simp

theorem csum_foldl_cincr (c : EventMap) (init : EventCounter) :
    csum (c.foldl (fun acc p => cincr acc p.1 p.2.length) init) =
      csum init + sumLens c := by
  induction c generalizing init with
  | nil => simp
  | cons p rest ih =>
    simp only [List.foldl_cons, ih, csum_cincr, sumLens_cons]
    omega

theorem csum_foldl_cset (c : EventMap) (init : EventCounter)
    (hd : ∀ p ∈ c, p.1 ∉ init.map Prod.fst) (hn : (mapKeys c).Nodup) :
    csum (c.foldl (fun acc p => cset acc p.1 p.2.length) init) =
      csum init + sumLens c := by
  induction c generalizing init with
  | nil => simp
  | cons p rest ih =>
    have hfresh : cset init p.1 p.2.length = init ++ [(p.1, p.2.length)] :=
      cset_fresh _ _ _ (hd p (by simp))
    have hkeys : (mapKeys rest).Nodup := (List.nodup_cons.mp (by simpa using hn)).2
    have hp1 : p.1 ∉ mapKeys rest := (List.nodup_cons.mp (by simpa using hn)).1
    simp only [List.foldl_cons, hfresh]
    rw [ih (init ++ [(p.1, p.2.length)]) ?_ hkeys]
    · simp [csum, sumLens]; omega
    · intro q hq
      simp only [List.map_append, List.mem_append]
      push_neg
      refine ⟨hd q (by simp [hq]), ?_⟩
      simp only [List.map_cons, List.map_nil, List.mem_singleton]
      intro hq1
      exact hp1 (hq1 ▸ List.mem_map_of_mem Prod.fst hq)

theorem event_count_eq (b : EventBus) (h : (mapKeys b.events).Nodup) :
    b.event_count = sumLens b.events + sumLens b.async_events := by
  unfold EventBus.event_count EventBus.subscribed_event_count
  rw [csum_foldl_cincr, csum_foldl_cset _ _ (by simp) h]
  simp

/-! ### The removal loop of `remove_event` -/

theorem removePass_eq (n : String) (orig : List Handler) :
    ∀ (copy : List Handler) (r : Bool),
    removePass n orig copy r =
      ((orig.filter (fun h => h.name == n)).foldl (fun c f => c.erase f) copy,
        r || orig.any (fun h => h.name == n)) := by
  induction orig with
  | nil => intro copy r; simp [removePass]
  | cons f rest ih =>
    intro copy r
    by_cases hf : f.name = n
    · rw [removePass, if_pos hf, ih]
      simp [hf]
    · have hb : (f.name == n) = false := by simp [hf]
      rw [removePass, if_neg hf, ih]
      simp [hb]

theorem foldl_erase_cons (ms : List Handler) (x : Handler) :
    ∀ (xs : List Handler), x ∉ ms →
    ms.foldl (fun c f => c.erase f) (x :: xs) =
      x :: ms.foldl (fun c f => c.erase f) xs := by
  induction ms with
  | nil => intro xs _; rfl
  | cons m rest ih =>
    intro xs h
    have hxm : ¬(x == m) := by
      simp only [beq_iff_eq]
      intro hh
      exact h (by simp [hh])
    simp only [List.foldl_cons, List.erase_cons_tail hxm]
    exact ih (xs.erase m) (fun hh => h (by simp [hh]))

theorem foldl_erase_filter (p : Handler → Bool) (l : List Handler)
    (h : l.Nodup) :
    (l.filter p).foldl (fun c f => c.erase f) l = l.filter (fun x => !(p x)) := by
  induction l with
  | nil => rfl
  | cons x xs ih =>
    obtain ⟨hx, hxs⟩ := List.nodup_cons.mp h
    by_cases hp : p x
    · rw [List.filter_cons_of_pos hp, List.foldl_cons, List.erase_cons_head,
        ih hxs, List.filter_cons_of_neg (by simp [hp])]
    · rw [List.filter_cons_of_neg hp,
        foldl_erase_cons _ _ _ (fun hh => hx (List.mem_of_mem_filter hh)),
        ih hxs, List.filter_cons_of_pos (by simp at hp; simp [hp])]

theorem removePass_spec (n : String) (l : List Handler) (h : l.Nodup) :
    removePass n l l false =
      (l.filter (fun x => !(x.name == n)), l.any (fun x => x.name == n)) := by
  rw [removePass_eq, foldl_erase_filter _ _ h]
  simp

/-! ### The synchronous loops of `emit` and `emit_only` -/

theorem runSync_ok (behave : Behave) (args : Args) (l : List Handler)
    (h : ∀ f ∈ l, behave f.id args = .ok ()) :
    runSync behave args l = (l.map (fun f => Act.call f args), none) := by
  induction l with
  | nil => rfl
  | cons f rest ih =>
    have hf := h f (by simp)
    rw [runSync, hf, ih (fun g hg => h g (by simp [hg]))]
    rfl

theorem runSync_append_error (behave : Behave) (args : Args) (msg : String)
    (l₁ : List Handler) (g : Handler) (l₂ : List Handler)
    (h1 : ∀ f ∈ l₁, behave f.id args = .ok ())
    (h2 : behave g.id args = .error msg) :
    runSync behave args (l₁ ++ g :: l₂) =
      (l₁.map (fun f => Act.call f args) ++ [Act.call g args], some msg) := by
  induction l₁ with
  | nil => simp [runSync, h2]
  | cons f rest ih =>
    have hf := h1 f (by simp)
    rw [List.cons_append, runSync, hf, ih (fun q hq => h1 q (by simp [hq]))]
    simp

theorem mem_runSync (behave : Behave) (args : Args) (l : List Handler)
    (a : Act) (h : a ∈ (runSync behave args l).1) :
    ∃ g ∈ l, a = Act.call g args := by
  induction l with
  | nil => simp [runSync] at h
  | cons f rest ih =>
    rw [runSync] at h
    cases hb : behave f.id args with
    | ok u =>
      rw [hb] at h
      simp only at h
      rcases List.mem_cons.mp h with h1 | h1
      · exact ⟨f, by simp, h1⟩
      · obtain ⟨g, hg, ha⟩ := ih h1
        exact ⟨g, by simp [hg], ha⟩
    | error msg =>
      rw [hb] at h
      simp only [List.mem_singleton] at h
      exact ⟨f, by simp, h⟩

theorem runSyncOnly_ok (behave : Behave) (names : List String) (args : Args)
    (l : List Handler)
    (h : ∀ f ∈ l, f.name ∈ names → behave f.id args = .ok ()) :
    runSyncOnly behave names args l =
      ((l.filter (fun f => f.name ∈ names)).map (fun f => Act.call f args),
        none) := by
  induction l with
  | nil => rfl
  | cons f rest ih =>
    by_cases hf : f.name ∈ names
    · rw [runSyncOnly, if_pos hf, h f (by simp) hf,
        ih (fun g hg => h g (by simp [hg]))]
      simp [hf]
    · rw [runSyncOnly, if_neg hf, ih (fun g hg => h g (by simp [hg]))]
      simp [hf]

theorem mem_runSyncOnly (behave : Behave) (names : List String) (args : Args)
    (l : List Handler) (a : Act) (h : a ∈ (runSyncOnly behave names args l).1) :
    ∃ g ∈ l, g.name ∈ names ∧ a = Act.call g args := by
  induction l with
  | nil => simp [runSyncOnly] at h
  | cons f rest ih =>
    rw [runSyncOnly] at h
    by_cases hf : f.name ∈ names
    · rw [if_pos hf] at h
      cases hb : behave f.id args with
      | ok u =>
        rw [hb] at h
        simp only at h
        rcases List.mem_cons.mp h with h1 | h1
        · exact ⟨f, by simp, hf, h1⟩
        · obtain ⟨g, hg, hgn, ha⟩ := ih h1
          exact ⟨g, by simp [hg], hgn, ha⟩
      | error msg =>
        rw [hb] at h
        simp only [List.mem_singleton] at h
        exact ⟨f, by simp, hf, h⟩
    · rw [if_neg hf] at h
      obtain ⟨g, hg, hgn, ha⟩ := ih h
      exact ⟨g, by simp [hg], hgn, ha⟩

/-! ### Well-formedness helpers -/

theorem EventBus.WF.pair_nodup {b : EventBus} (h : b.WF) (e : String) :
    (b.event_funcs e ++ b.async_event_funcs e).Nodup := by
  obtain ⟨hk1, hk2, h3, h4⟩ := h
  by_cases he : e ∈ mapKeys b.events
  · exact h3 (e, lookupD b.events e) (mem_of_lookupD _ _ he)
  · by_cases ha : e ∈ mapKeys b.async_events
    · exact h4 (e, lookupD b.async_events e) (mem_of_lookupD _ _ ha)
    · rw [EventBus.event_funcs, EventBus.async_event_funcs,
        lookupD_not_mem _ _ he, lookupD_not_mem _ _ ha]
      exact List.nodup_nil

theorem EventBus.WF.sync_nodup {b : EventBus} (h : b.WF) (e : String) :
    (b.event_funcs e).Nodup :=
  ((List.nodup_append.mp (h.pair_nodup e)).1)

theorem EventBus.WF.async_nodup {b : EventBus} (h : b.WF) (e : String) :
    (b.async_event_funcs e).Nodup :=
  ((List.nodup_append.mp (h.pair_nodup e)).2.1)

theorem EventBus.WF.disjoint {b : EventBus} (h : b.WF) (e : String) :
    ∀ f ∈ b.event_funcs e, f ∉ b.async_event_funcs e := by
  intro f hf
  exact (List.nodup_append.mp (h.pair_nodup e)).2.2 hf

/-! ### The shape of `remove_event` -/

theorem remove_event_eq (b : EventBus) (n e : String)
    (hs : (b.event_funcs e).Nodup) (ha : (b.async_event_funcs e).Nodup) :
    b.remove_event n e =
      if (b.event_funcs e).any (fun x => x.name == n) then
        ({ b with events := (setE b.events e
            ((b.event_funcs e).filter (fun x => !(x.name == n)))) },
          none)
      else if (b.async_event_funcs e).any (fun x => x.name == n) then
        ({ b with async_events := (setE b.async_events e
            ((b.async_event_funcs e).filter (fun x => !(x.name == n)))) },
          none)
      else (b, some (eventDoesntExistMsg e)) := by
  rw [EventBus.remove_event]
  rw [removePass_spec _ _ hs, removePass_spec _ _ ha]

/-! ### Launch actions come before call actions -/

/-- Is this action the start of a background thread? -/
def Act.isLaunch : Act → Bool
  | .launch _ _ => true
  | .call _ _ => false

/-- Is this action a synchronous invocation? -/
def Act.isCall : Act → Bool
  | .launch _ _ => false
  | .call _ _ => true

theorem launch_lt_call (tr1 tr2 : List Act)
    (h1 : ∀ a ∈ tr1, a.isCall = false) (h2 : ∀ a ∈ tr2, a.isLaunch = false)
    (i j : Nat) (hi : i < (tr1 ++ tr2).length) (hj : j < (tr1 ++ tr2).length)
    (hli : ((tr1 ++ tr2).get ⟨i, hi⟩).isLaunch = true)
    (hcj : ((tr1 ++ tr2).get ⟨j, hj⟩).isCall = true) : i < j := by
  have hlen := List.length_append tr1 tr2
  have hi1 : i < tr1.length := by
    by_contra hcon
    push_neg at hcon
    have h2len : i - tr1.length < tr2.length := by omega
    have heq : (tr1 ++ tr2).get ⟨i, hi⟩ = tr2.get ⟨i - tr1.length, h2len⟩ := by
      simp [List.getElem_append_right, hcon]
    rw [heq] at hli
    have hmem := List.get_mem tr2 (i - tr1.length) h2len
    have hfalse := h2 _ hmem
    rw [hli] at hfalse
    exact absurd hfalse (by simp)
  have hj1 : tr1.length ≤ j := by
    by_contra hcon
    push_neg at hcon
    have heq : (tr1 ++ tr2).get ⟨j, hj⟩ = tr1.get ⟨j, hcon⟩ := by
      simp [List.getElem_append_left, hcon]
    rw [heq] at hcj
    have hmem := List.get_mem tr1 j hcon
    have hfalse := h1 _ hmem
    rw [hcj] at hfalse
    exact absurd hfalse (by simp)
  omega

theorem trace_launch_lt_call (tr : List Act) (A : List Handler) (args : Args)
    (C : List Act) (htr : tr = A.map (fun f => Act.launch f args) ++ C)
    (hC : ∀ a ∈ C, a.isCall = true)
    (i j : Nat) (hi : i < tr.length) (hj : j < tr.length)
    (hli : (tr.get ⟨i, hi⟩).isLaunch = true)
    (hcj : (tr.get ⟨j, hj⟩).isCall = true) : i < j := by
  subst htr
  refine launch_lt_call _ _ ?_ ?_ i j hi hj hli hcj
  · intro a ha
    obtain ⟨f, _, rfl⟩ := List.mem_map.mp ha
    rfl
  · intro a ha
    cases a with
    | launch h as => exact absurd (hC _ ha) (by simp [Act.isCall])
    | call h as => rfl

/-- C8: dispatching an event with no registered handlers performs no launch,
no call, and raises nothing. -/
theorem emit_no_handlers (b : EventBus) (behave : Behave) (e : String)
    (args : Args) (hs : b.event_funcs e = []) (ha : b.async_event_funcs e = []) :
    b.emit behave e args = ([], none) := by
  rw [EventBus.emit, hs, ha]
  rfl

/-- C8 witness. -/
theorem emit_no_handlers_witness :
    EventBus.init.emit (fun _ _ => .ok ()) "evt" [1, 2] = ([], none) :=
  emit_no_handlers EventBus.init (fun _ _ => .ok ()) "evt" [1, 2] rfl rfl

/-- C4: removing a handler name present in neither the synchronous nor the
background set of `event` raises `EventDoesntExist` and leaves the registry
state unchanged. -/
theorem remove_event_not_found (b : EventBus) (n e : String)
    (hs : ∀ f ∈ b.event_funcs e, f.name ≠ n)
    (ha : ∀ f ∈ b.async_event_funcs e, f.name ≠ n) :
    b.remove_event n e = (b, some (eventDoesntExistMsg e)) := by
  have hs2 : ((b.event_funcs e).any fun x => x.name == n) = false := by
    rw [List.any_eq_false]
    intro f hf
    simpa using hs f hf
  have ha2 : ((b.async_event_funcs e).any fun x => x.name == n) = false := by
    rw [List.any_eq_false]
    intro f hf
    simpa using ha f hf
  rw [EventBus.remove_event, removePass_eq, removePass_eq]
  simp [hs2, ha2]

/-- C4 witness. -/
theorem remove_event_not_found_witness :
    (EventBus.mk [("e", [⟨1, "x"⟩])] [("e", [⟨2, "y"⟩])]).remove_event "z" "e" =
      (EventBus.mk [("e", [⟨1, "x"⟩])] [("e", [⟨2, "y"⟩])],
        some (eventDoesntExistMsg "e")) :=
  remove_event_not_found _ "z" "e" (by decide) (by decide)

/-- C2: within one `emit` call, every background handler of the event is
launched before any synchronous handler begins running, and (when no
synchronous handler raises) every synchronous handler is invoked in the
calling context with the same arguments. -/
theorem emit_launches_before_sync (b : EventBus) (behave : Behave)
    (e : String) (args : Args)
    (hok : ∀ f ∈ b.event_funcs e, behave f.id args = .ok ()) :
    b.emit behave e args =
      ((b.async_event_funcs e).map (fun f => Act.launch f args) ++
        (b.event_funcs e).map (fun f => Act.call f args), none) ∧
    (∀ f ∈ b.async_event_funcs e,
      Act.launch f args ∈ (b.emit behave e args).1) ∧
    (∀ f ∈ b.event_funcs e, Act.call f args ∈ (b.emit behave e args).1) ∧
    ∀ (i j : Nat) (hi : i < (b.emit behave e args).1.length)
      (hj : j < (b.emit behave e args).1.length),
      ((b.emit behave e args).1.get ⟨i, hi⟩).isLaunch = true →
      ((b.emit behave e args).1.get ⟨j, hj⟩).isCall = true → i < j := by
  have hemit : b.emit behave e args =
      ((b.async_event_funcs e).map (fun f => Act.launch f args) ++
        (b.event_funcs e).map (fun f => Act.call f args), none) := by
    rw [EventBus.emit, runSync_ok behave args _ hok]
  refine ⟨hemit, ?_, ?_, ?_⟩
  · intro f hf
    rw [hemit]
    exact List.mem_append_left _ (List.mem_map_of_mem _ hf)
  · intro f hf
    rw [hemit]
    exact List.mem_append_right _ (List.mem_map_of_mem _ hf)
  · intro i j hi hj hli hcj
    refine trace_launch_lt_call _ (b.async_event_funcs e) args
      ((b.event_funcs e).map (fun f => Act.call f args)) ?_ ?_ i j hi hj hli hcj
    · rw [hemit]
    · intro a ha
      obtain ⟨f, _, rfl⟩ := List.mem_map.mp ha
      rfl

/-- C2 witness. -/
theorem emit_launches_before_sync_witness :
    (EventBus.mk [("evt", [⟨1, "s1"⟩])] [("evt", [⟨2, "a1"⟩])]).emit
        (fun _ _ => .ok ()) "evt" [3] =
      ([Act.launch ⟨2, "a1"⟩ [3], Act.call ⟨1, "s1"⟩ [3]], none) :=
  (emit_launches_before_sync (EventBus.mk [("evt", [⟨1, "s1"⟩])] [("evt", [⟨2, "a1"⟩])])
    (fun _ _ => .ok ()) "evt" [3] (fun _ _ => rfl)).1

/-- C7: if a synchronous handler raises during `emit`, the exception
propagates unwrapped to the caller and the remaining synchronous handlers
of that call are not invoked. -/
theorem emit_sync_exception (b : EventBus) (behave : Behave) (e : String)
    (args : Args) (msg : String) (l1 : List Handler) (g : Handler)
    (l2 : List Handler)
    (hsync : b.event_funcs e = l1 ++ g :: l2)
    (hnd : (l1 ++ g :: l2).Nodup)
    (h1 : ∀ f ∈ l1, behave f.id args = .ok ())
    (h2 : behave g.id args = .error msg) :
    b.emit behave e args =
      ((b.async_event_funcs e).map (fun f => Act.launch f args) ++
        (l1.map (fun f => Act.call f args) ++ [Act.call g args]), some msg) ∧
    ∀ f ∈ l2, Act.call f args ∉ (b.emit behave e args).1 := by
  have hemit : b.emit behave e args =
      ((b.async_event_funcs e).map (fun f => Act.launch f args) ++
        (l1.map (fun f => Act.call f args) ++ [Act.call g args]), some msg) := by
    rw [EventBus.emit, hsync, runSync_append_error behave args msg l1 g l2 h1 h2]
  refine ⟨hemit, ?_⟩
  intro f hf hmem
  rw [hemit] at hmem
  obtain ⟨hl1, hgl2, hdisj⟩ := List.nodup_append.mp hnd
  have hg2 := List.nodup_cons.mp hgl2
  rcases List.mem_append.mp hmem with hA | hB
  · obtain ⟨q, _, hq⟩ := List.mem_map.mp hA
    exact absurd hq (by simp)
  · rcases List.mem_append.mp hB with hB1 | hB2
    · obtain ⟨q, hq1, hq2⟩ := List.mem_map.mp hB1
      simp only [Act.call.injEq] at hq2
      exact hdisj (hq2.1 ▸ hq1) (by simp [hf])
    · rw [List.mem_singleton] at hB2
      simp only [Act.call.injEq] at hB2
      exact hg2.1 (hB2.1 ▸ hf)

/-- C7 witness. -/
theorem emit_sync_exception_witness :
    (EventBus.mk [("e", [⟨1, "f1"⟩, ⟨2, "f2"⟩, ⟨3, "f3"⟩])] []).emit
        (fun i _ => if i = 2 then .error "boom" else .ok ()) "e" [] =
      ([Act.call ⟨1, "f1"⟩ [], Act.call ⟨2, "f2"⟩ []], some "boom") :=
  (emit_sync_exception (EventBus.mk [("e", [⟨1, "f1"⟩, ⟨2, "f2"⟩, ⟨3, "f3"⟩])] [])
    (fun i _ => if i = 2 then .error "boom" else .ok ()) "e" [] "boom"
    [⟨1, "f1"⟩] ⟨2, "f2"⟩ [⟨3, "f3"⟩] rfl (by decide)
    (by
      intro f hf
      rw [List.mem_singleton] at hf
      subst hf
      rfl)
    rfl).1

theorem sum_lookupD_lengths (c : EventMap) :
    ∀ (E : List String), E.Nodup → (mapKeys c).Nodup →
    (∀ k ∈ mapKeys c, k ∈ E) →
    (E.map (fun e => (lookupD c e).length)).sum = sumLens c := by
  induction c with
  | nil => intro E _ _ _; simp
  | cons p rest ih =>
    intro E hE hkeys hsub
    obtain ⟨k, w⟩ := p
    have hkE : k ∈ E := hsub k (by simp)
    have hknotin : k ∉ mapKeys rest := by
      simpa using (List.nodup_cons.mp (by simpa using hkeys)).1
    have hrest : (mapKeys rest).Nodup :=
      (List.nodup_cons.mp (by simpa using hkeys)).2
    have hperm : E.Perm (k :: E.erase k) := List.perm_cons_erase hkE
    have hsum := (hperm.map (fun e => (lookupD ((k, w) :: rest) e).length)).sum_eq
    have hcongr : (E.erase k).map (fun e => (lookupD ((k, w) :: rest) e).length) =
        (E.erase k).map (fun e => (lookupD rest e).length) := by
      apply List.map_congr_left
      intro a ha
      have hak : a ≠ k := (hE.mem_erase_iff.mp ha).1
      rw [lookupD_cons, if_neg (fun hh => hak hh.symm)]
    rw [hsum, List.map_cons, List.sum_cons, hcongr,
      ih (E.erase k) (hE.erase k) hrest ?_]
    · rw [lookupD_cons, if_pos rfl]
      simp
    · intro q hq
      exact hE.mem_erase_iff.mpr ⟨fun hh => hknotin (hh ▸ hq), hsub q (by simp [hq])⟩

/-- C9: `event_count` is the total number of handler registrations: the sum,
over all event names, of the sizes of that event's synchronous and
background handler sets (any duplicate-free enumeration `E` of the event
names covering both dictionaries gives the same sum). -/
theorem event_count_is_total_registrations (b : EventBus) (E : List String)
    (hE : E.Nodup)
    (hs : (mapKeys b.events).Nodup) (ha : (mapKeys b.async_events).Nodup)
    (hsk : ∀ k ∈ mapKeys b.events, k ∈ E)
    (hak : ∀ k ∈ mapKeys b.async_events, k ∈ E) :
    b.event_count =
      (E.map (fun e => (b.event_funcs e).length + (b.async_event_funcs e).length)).sum := by
  rw [event_count_eq b hs]
  have h1 := sum_lookupD_lengths b.events E hE hs hsk
  have h2 := sum_lookupD_lengths b.async_events E hE ha hak
  calc sumLens b.events + sumLens b.async_events
      = (E.map (fun e => (lookupD b.events e).length)).sum +
        (E.map (fun e => (lookupD b.async_events e).length)).sum := by rw [h1, h2]
    _ = (E.map (fun e => (b.event_funcs e).length + (b.async_event_funcs e).length)).sum := by
        rw [← List.sum_map_add]
        rfl

/-- C9 witness. -/
theorem event_count_is_total_registrations_witness :
    (EventBus.mk [("a", [⟨1, "f"⟩, ⟨2, "g"⟩]), ("b", [⟨3, "h"⟩])]
        [("b", [⟨4, "k"⟩]), ("c", [⟨5, "m"⟩])]).event_count =
      ((["a", "b", "c"]).map (fun e =>
        ((EventBus.mk [("a", [⟨1, "f"⟩, ⟨2, "g"⟩]), ("b", [⟨3, "h"⟩])]
          [("b", [⟨4, "k"⟩]), ("c", [⟨5, "m"⟩])]).event_funcs e).length +
        ((EventBus.mk [("a", [⟨1, "f"⟩, ⟨2, "g"⟩]), ("b", [⟨3, "h"⟩])]
          [("b", [⟨4, "k"⟩]), ("c", [⟨5, "m"⟩])]).async_event_funcs e).length)).sum :=
  event_count_is_total_registrations _ ["a", "b", "c"]
    (by decide) (by decide) (by decide) (by decide) (by decide)

theorem add_event_fresh (b : EventBus) (h : Handler) (e : String) (t : Bool)
    (hfs : h ∉ b.event_funcs e) (hfa : h ∉ b.async_event_funcs e) :
    (h ∈ (b.add_event h e t).event_funcs e ∨
      h ∈ (b.add_event h e t).async_event_funcs e) ∧
    ((b.add_event h e t).event_funcs e ++
      (b.add_event h e t).async_event_funcs e).count h = 1 ∧
    ((mapKeys b.events).Nodup → (mapKeys (b.add_event h e t).events).Nodup ∧
      (b.add_event h e t).event_count = b.event_count + 1) := by
  have hmem : ¬ (h ∈ b.event_funcs e ∨ h ∈ b.async_event_funcs e) := by
    rintro (hc | hc)
    exacts [hfs hc, hfa hc]
  cases t with
  | true =>
    have hb : b.add_event h e true =
        { b with async_events := (setE b.async_events e
          (b.async_event_funcs e ++ [h])) } := by
      rw [EventBus.add_event, if_neg hmem]
      rfl
    have hsf : (b.add_event h e true).event_funcs e = b.event_funcs e := by
      rw [hb]; rfl
    have haf : (b.add_event h e true).async_event_funcs e =
        b.async_event_funcs e ++ [h] := by
      rw [hb]
      show lookupD (setE b.async_events e (b.async_event_funcs e ++ [h])) e = _
      rw [lookupD_setE_self]
    refine ⟨Or.inr (by rw [haf]; simp), ?_, ?_⟩
    · rw [hsf, haf]
      simp [List.count_append, List.count_eq_zero.mpr hfs,
        List.count_eq_zero.mpr hfa]
    · intro hkeys
      have hkeys2 : (mapKeys (b.add_event h e true).events).Nodup := by
        rw [hb]; exact hkeys
      refine ⟨hkeys2, ?_⟩
      rw [event_count_eq _ hkeys2, event_count_eq _ hkeys, hb]
      show sumLens b.events +
        sumLens (setE b.async_events e (b.async_event_funcs e ++ [h])) = _
      have hset := sumLens_setE b.async_events e (b.async_event_funcs e ++ [h])
      have hlook : lookupD b.async_events e = b.async_event_funcs e := rfl
      rw [hlook] at hset
      simp only [List.length_append, List.length_singleton] at hset
      omega
  | false =>
    have hb : b.add_event h e false =
        { b with events := setE b.events e (b.event_funcs e ++ [h]) } := by
      rw [EventBus.add_event, if_neg hmem]
      rfl
    have hsf : (b.add_event h e false).event_funcs e =
        b.event_funcs e ++ [h] := by
      rw [hb]
      show lookupD (setE b.events e (b.event_funcs e ++ [h])) e = _
      rw [lookupD_setE_self]
    have haf : (b.add_event h e false).async_event_funcs e =
        b.async_event_funcs e := by
      rw [hb]; rfl
    refine ⟨Or.inl (by rw [hsf]; simp), ?_, ?_⟩
    · rw [hsf, haf]
      simp [List.count_append, List.count_eq_zero.mpr hfs,
        List.count_eq_zero.mpr hfa]
    · intro hkeys
      have hkeys2 : (mapKeys (b.add_event h e false).events).Nodup := by
        rw [hb]
        exact mapKeys_setE_nodup _ _ _ hkeys
      refine ⟨hkeys2, ?_⟩
      rw [event_count_eq _ hkeys2, event_count_eq _ hkeys, hb]
      show sumLens (setE b.events e (b.event_funcs e ++ [h])) +
        sumLens b.async_events = _
      have hset := sumLens_setE b.events e (b.event_funcs e ++ [h])
      have hlook : lookupD b.events e = b.event_funcs e := rfl
      rw [hlook] at hset
      simp only [List.length_append, List.length_singleton] at hset
      omega

/-- C1 counterexample: in a state where the handler is already registered
for the event, registering it twice more leaves `event_count` unchanged,
so the count does not increase by 1 over the two calls. -/
theorem add_event_twice_counterexample :
    ¬ (((EventBus.mk [("e", [⟨1, "f"⟩])] []).add_event ⟨1, "f"⟩ "e" true
          |>.add_event ⟨1, "f"⟩ "e" false).event_count =
        (EventBus.mk [("e", [⟨1, "f"⟩])] []).event_count + 1) := by
  decide

/-- C1 (amended): for a state in which handler `h` is not yet registered for
event `e`, registering `(h, e)` twice with any background flags leaves
exactly one registration of `h` for `e`, the second registration is a
no-op, and `event_count` increases by exactly 1 over the two calls. -/
theorem add_event_twice_amended (b : EventBus) (h : Handler) (e : String)
    (t1 t2 : Bool) (hkeys : (mapKeys b.events).Nodup)
    (hfs : h ∉ b.event_funcs e) (hfa : h ∉ b.async_event_funcs e) :
    (b.add_event h e t1).add_event h e t2 = b.add_event h e t1 ∧
    ((b.add_event h e t1).add_event h e t2).event_count = b.event_count + 1 ∧
    (((b.add_event h e t1).add_event h e t2).event_funcs e ++
        ((b.add_event h e t1).add_event h e t2).async_event_funcs e).count h
      = 1 := by
  obtain ⟨hm, hcount1, himpl⟩ := add_event_fresh b h e t1 hfs hfa
  have hb2 : (b.add_event h e t1).add_event h e t2 = b.add_event h e t1 := by
    rw [EventBus.add_event, if_pos hm]
  obtain ⟨hknd, hec⟩ := himpl hkeys
  refine ⟨hb2, ?_, ?_⟩
  · rw [hb2, hec]
  · rw [hb2]
    exact hcount1

/-- C1 witness for the amended theorem. -/
theorem add_event_twice_amended_witness :
    ((EventBus.mk [("e", [⟨1, "f"⟩])] []).add_event ⟨2, "g"⟩ "e" true
        |>.add_event ⟨2, "g"⟩ "e" false) =
      (EventBus.mk [("e", [⟨1, "f"⟩])] []).add_event ⟨2, "g"⟩ "e" true ∧
    ((EventBus.mk [("e", [⟨1, "f"⟩])] []).add_event ⟨2, "g"⟩ "e" true
        |>.add_event ⟨2, "g"⟩ "e" false).event_count =
      (EventBus.mk [("e", [⟨1, "f"⟩])] []).event_count + 1 :=
  ⟨(add_event_twice_amended (EventBus.mk [("e", [⟨1, "f"⟩])] []) ⟨2, "g"⟩ "e"
      true false (by decide) (by decide) (by decide)).1,
    (add_event_twice_amended (EventBus.mk [("e", [⟨1, "f"⟩])] []) ⟨2, "g"⟩ "e"
      true false (by decide) (by decide) (by decide)).2.1⟩

theorem length_filter_not_add (p : Handler → Bool) (l : List Handler) :
    (l.filter (fun x => !(p x))).length + (l.filter p).length = l.length := by
  induction l with
  | nil => rfl
  | cons x xs ih =>
    by_cases hp : p x <;> simp [List.filter_cons, hp] <;> omega

theorem emit_fst (b : EventBus) (behave : Behave) (e : String) (args : Args) :
    (b.emit behave e args).1 =
      (b.async_event_funcs e).map (fun f => Act.launch f args) ++
        (runSync behave args (b.event_funcs e)).1 := by
  rw [EventBus.emit]

theorem remove_sync_case (b : EventBus) (n e : String) (hWF : b.WF)
    (hex : (b.event_funcs e).any (fun x => x.name == n) = true) :
    b.remove_event n e =
      ({ b with events := (setE b.events e
          ((b.event_funcs e).filter (fun x => !(x.name == n)))) }, none) ∧
    (b.remove_event n e).1.event_funcs e =
      (b.event_funcs e).filter (fun x => !(x.name == n)) ∧
    (b.remove_event n e).1.async_event_funcs e = b.async_event_funcs e ∧
    (b.remove_event n e).1.event_count +
      ((b.event_funcs e).filter (fun x => x.name == n)).length = b.event_count ∧
    (∀ behave args f, f ∈ b.event_funcs e → f.name = n →
      ¬ invokedIn f ((b.remove_event n e).1.emit behave e args).1) := by
  have heq := remove_event_eq b n e (hWF.sync_nodup e) (hWF.async_nodup e)
  rw [if_pos hex] at heq
  have hsf : (b.remove_event n e).1.event_funcs e =
      (b.event_funcs e).filter (fun x => !(x.name == n)) := by
    rw [heq]
    show lookupD (setE b.events e _) e = _
    rw [lookupD_setE_self]
  have haf : (b.remove_event n e).1.async_event_funcs e =
      b.async_event_funcs e := by
    rw [heq]
    rfl
  refine ⟨heq, hsf, haf, ?_, ?_⟩
  · have hkeys := hWF.1
    have hkeys2 : (mapKeys (b.remove_event n e).1.events).Nodup := by
      rw [heq]
      exact mapKeys_setE_nodup _ _ _ hkeys
    rw [event_count_eq _ hkeys2, event_count_eq b hkeys, heq]
    show sumLens (setE b.events e _) + sumLens b.async_events + _ = _
    have hset := sumLens_setE b.events e
      ((b.event_funcs e).filter (fun x => !(x.name == n)))
    have hlk : lookupD b.events e = b.event_funcs e := rfl
    rw [hlk] at hset
    have hflen := length_filter_not_add (fun x => x.name == n) (b.event_funcs e)
    omega
  · intro behave args f hf hfn hinv
    obtain ⟨a, ha, hah⟩ := hinv
    rw [emit_fst] at ha
    rcases List.mem_append.mp ha with hA | hB
    · obtain ⟨g, hg, rfl⟩ := List.mem_map.mp hA
      have hgf : g = f := hah
      rw [haf] at hg
      exact hWF.disjoint e f hf (hgf ▸ hg)
    · obtain ⟨g, hg, rfl⟩ := mem_runSync behave args _ a hB
      have hgf : g = f := hah
      rw [hsf] at hg
      have hgp := List.of_mem_filter hg
      rw [hgf, hfn] at hgp
      simp at hgp

theorem remove_async_case (b : EventBus) (n e : String) (hWF : b.WF)
    (hno : (b.event_funcs e).any (fun x => x.name == n) = false)
    (hex : (b.async_event_funcs e).any (fun x => x.name == n) = true) :
    b.remove_event n e =
      ({ b with async_events := (setE b.async_events e
          ((b.async_event_funcs e).filter (fun x => !(x.name == n)))) }, none) ∧
    (b.remove_event n e).1.async_event_funcs e =
      (b.async_event_funcs e).filter (fun x => !(x.name == n)) ∧
    (b.remove_event n e).1.event_funcs e = b.event_funcs e ∧
    (b.remove_event n e).1.event_count +
      ((b.async_event_funcs e).filter (fun x => x.name == n)).length
      = b.event_count ∧
    (∀ behave args f, f ∈ b.async_event_funcs e → f.name = n →
      ¬ invokedIn f ((b.remove_event n e).1.emit behave e args).1) := by
  have heq := remove_event_eq b n e (hWF.sync_nodup e) (hWF.async_nodup e)
  rw [if_neg (by simp [hno]), if_pos hex] at heq
  have haf : (b.remove_event n e).1.async_event_funcs e =
      (b.async_event_funcs e).filter (fun x => !(x.name == n)) := by
    rw [heq]
    show lookupD (setE b.async_events e _) e = _
    rw [lookupD_setE_self]
  have hsf : (b.remove_event n e).1.event_funcs e = b.event_funcs e := by
    rw [heq]
    rfl
  refine ⟨heq, haf, hsf, ?_, ?_⟩
  · have hkeys := hWF.1
    have hkeys2 : (mapKeys (b.remove_event n e).1.events).Nodup := by
      rw [heq]
      exact hkeys
    rw [event_count_eq _ hkeys2, event_count_eq b hkeys, heq]
    show sumLens b.events + sumLens (setE b.async_events e _) + _ = _
    have hset := sumLens_setE b.async_events e
      ((b.async_event_funcs e).filter (fun x => !(x.name == n)))
    have hlk : lookupD b.async_events e = b.async_event_funcs e := rfl
    rw [hlk] at hset
    have hflen := length_filter_not_add (fun x => x.name == n)
      (b.async_event_funcs e)
    omega
  · intro behave args f hf hfn hinv
    obtain ⟨a, ha, hah⟩ := hinv
    rw [emit_fst] at ha
    rcases List.mem_append.mp ha with hA | hB
    · obtain ⟨g, hg, rfl⟩ := List.mem_map.mp hA
      have hgf : g = f := hah
      rw [haf] at hg
      have hgp := List.of_mem_filter hg
      rw [hgf, hfn] at hgp
      simp at hgp
    · obtain ⟨g, hg, rfl⟩ := mem_runSync behave args _ a hB
      have hgf : g = f := hah
      rw [hsf] at hg
      exact hWF.disjoint e f (hgf ▸ hg) hf

theorem two_le_length_of_mem_ne {α : Type} (l : List α) (a b : α)
    (ha : a ∈ l) (hb : b ∈ l) (hab : a ≠ b) : 2 ≤ l.length := by
  cases l with
  | nil => simp at ha
  | cons x xs =>
    cases xs with
    | nil =>
      rw [List.mem_singleton] at ha hb
      exact absurd (ha.trans hb.symm) hab
    | cons y ys =>
      simp only [List.length_cons]
      omega

/-- C3 counterexample: with two distinct synchronous handlers sharing the
name, one `remove_event` call makes `event_count` drop by 2, not 1. -/
theorem remove_event_count_counterexample :
    ¬ (((EventBus.mk [("e", [⟨1, "n"⟩, ⟨2, "n"⟩])] []).remove_event
          "n" "e").1.event_count + 1 =
        (EventBus.mk [("e", [⟨1, "n"⟩, ⟨2, "n"⟩])] []).event_count) := by
  decide

/-- C3 (amended): `remove_event` removes every handler whose declared name
is `n` from the synchronous set of `e`; if no synchronous handler is named
`n` it removes every such handler from the background set instead.  After a
successful removal `event_count` has decreased by the number of removed
handlers (at least 1, and exactly 1 when exactly one handler matched), and
a subsequent dispatch of `e` no longer invokes any removed handler. -/
theorem remove_event_removes_named (b : EventBus) (n e : String)
    (hWF : b.WF) :
    ((∃ f ∈ b.event_funcs e, f.name = n) →
      b.remove_event n e =
        ({ b with events := (setE b.events e
            ((b.event_funcs e).filter (fun x => !(x.name == n)))) }, none) ∧
      (b.remove_event n e).1.event_count +
        ((b.event_funcs e).filter (fun x => x.name == n)).length
        = b.event_count ∧
      1 ≤ ((b.event_funcs e).filter (fun x => x.name == n)).length ∧
      (∀ behave args f, f ∈ b.event_funcs e → f.name = n →
        ¬ invokedIn f ((b.remove_event n e).1.emit behave e args).1)) ∧
    ((∀ f ∈ b.event_funcs e, f.name ≠ n) →
      (∃ f ∈ b.async_event_funcs e, f.name = n) →
      b.remove_event n e =
        ({ b with async_events := (setE b.async_events e
            ((b.async_event_funcs e).filter (fun x => !(x.name == n)))) },
          none) ∧
      (b.remove_event n e).1.event_count +
        ((b.async_event_funcs e).filter (fun x => x.name == n)).length
        = b.event_count ∧
      1 ≤ ((b.async_event_funcs e).filter (fun x => x.name == n)).length ∧
      (∀ behave args f, f ∈ b.async_event_funcs e → f.name = n →
        ¬ invokedIn f ((b.remove_event n e).1.emit behave e args).1)) := by
  constructor
  · rintro ⟨f0, hf0, hf0n⟩
    have hex : (b.event_funcs e).any (fun x => x.name == n) = true := by
      rw [List.any_eq_true]
      exact ⟨f0, hf0, by simp [hf0n]⟩
    obtain ⟨heq, hsf, haf, hcount, hninv⟩ := remove_sync_case b n e hWF hex
    refine ⟨heq, hcount, ?_, hninv⟩
    have hmemf : f0 ∈ (b.event_funcs e).filter (fun x => x.name == n) :=
      List.mem_filter.mpr ⟨hf0, by simp [hf0n]⟩
    exact List.length_pos.mpr (List.ne_nil_of_mem hmemf)
  · rintro hnone ⟨f0, hf0, hf0n⟩
    have hno : (b.event_funcs e).any (fun x => x.name == n) = false := by
      rw [List.any_eq_false]
      intro x hx
      simpa using hnone x hx
    have hex : (b.async_event_funcs e).any (fun x => x.name == n) = true := by
      rw [List.any_eq_true]
      exact ⟨f0, hf0, by simp [hf0n]⟩
    obtain ⟨heq, haf, hsf, hcount, hninv⟩ := remove_async_case b n e hWF hno hex
    refine ⟨heq, hcount, ?_, hninv⟩
    have hmemf : f0 ∈ (b.async_event_funcs e).filter (fun x => x.name == n) :=
      List.mem_filter.mpr ⟨hf0, by simp [hf0n]⟩
    exact List.length_pos.mpr (List.ne_nil_of_mem hmemf)

/-- C3 witness (synchronous branch, exactly one match). -/
theorem remove_event_removes_named_witness :
    (EventBus.mk [("e", [⟨1, "n"⟩, ⟨2, "m"⟩])] []).remove_event "n" "e" =
      ({ EventBus.mk [("e", [⟨1, "n"⟩, ⟨2, "m"⟩])] [] with
          events := (setE [("e", [⟨1, "n"⟩, ⟨2, "m"⟩])] "e"
            (([⟨1, "n"⟩, ⟨2, "m"⟩] : List Handler).filter
              (fun x => !(x.name == "n")))) }, none) :=
  ((remove_event_removes_named (EventBus.mk [("e", [⟨1, "n"⟩, ⟨2, "m"⟩])] [])
      "n" "e" (by decide)).1 ⟨⟨1, "n"⟩, by decide, rfl⟩).1

/-- C10: a single `remove_event` call removes every one of two or more
distinct same-named handlers from the synchronous set (so `event_count`
drops by the number of matches, at least 2, not by 1); the same holds for
the background set when the name is absent from the synchronous set. -/
theorem remove_event_removes_all_matching (b : EventBus) (n e : String)
    (hWF : b.WF) :
    ((∃ f1 ∈ b.event_funcs e, ∃ f2 ∈ b.event_funcs e,
        f1 ≠ f2 ∧ f1.name = n ∧ f2.name = n) →
      (b.remove_event n e).2 = none ∧
      (b.remove_event n e).1.event_funcs e =
        (b.event_funcs e).filter (fun x => !(x.name == n)) ∧
      (b.remove_event n e).1.event_count +
        ((b.event_funcs e).filter (fun x => x.name == n)).length
        = b.event_count ∧
      2 ≤ ((b.event_funcs e).filter (fun x => x.name == n)).length) ∧
    ((∀ f ∈ b.event_funcs e, f.name ≠ n) →
      (∃ f1 ∈ b.async_event_funcs e, ∃ f2 ∈ b.async_event_funcs e,
        f1 ≠ f2 ∧ f1.name = n ∧ f2.name = n) →
      (b.remove_event n e).2 = none ∧
      (b.remove_event n e).1.async_event_funcs e =
        (b.async_event_funcs e).filter (fun x => !(x.name == n)) ∧
      (b.remove_event n e).1.event_count +
        ((b.async_event_funcs e).filter (fun x => x.name == n)).length
        = b.event_count ∧
      2 ≤ ((b.async_event_funcs e).filter (fun x => x.name == n)).length) := by
  constructor
  · rintro ⟨f1, hf1, f2, hf2, hne, hn1, hn2⟩
    have hex : (b.event_funcs e).any (fun x => x.name == n) = true := by
      rw [List.any_eq_true]
      exact ⟨f1, hf1, by simp [hn1]⟩
    obtain ⟨heq, hsf, haf, hcount, _⟩ := remove_sync_case b n e hWF hex
    refine ⟨by rw [heq], hsf, hcount, ?_⟩
    refine two_le_length_of_mem_ne _ f1 f2 ?_ ?_ hne
    · exact List.mem_filter.mpr ⟨hf1, by simp [hn1]⟩
    · exact List.mem_filter.mpr ⟨hf2, by simp [hn2]⟩
  · rintro hnone ⟨f1, hf1, f2, hf2, hne, hn1, hn2⟩
    have hno : (b.event_funcs e).any (fun x => x.name == n) = false := by
      rw [List.any_eq_false]
      intro x hx
      simpa using hnone x hx
    have hex : (b.async_event_funcs e).any (fun x => x.name == n) = true := by
      rw [List.any_eq_true]
      exact ⟨f1, hf1, by simp [hn1]⟩
    obtain ⟨heq, haf, hsf, hcount, _⟩ := remove_async_case b n e hWF hno hex
    refine ⟨by rw [heq], haf, hcount, ?_⟩
    refine two_le_length_of_mem_ne _ f1 f2 ?_ ?_ hne
    · exact List.mem_filter.mpr ⟨hf1, by simp [hn1]⟩
    · exact List.mem_filter.mpr ⟨hf2, by simp [hn2]⟩

/-- C10 witness (two same-named synchronous handlers are both removed). -/
theorem remove_event_removes_all_matching_witness :
    ((EventBus.mk [("e", [⟨1, "n"⟩, ⟨2, "n"⟩])] []).remove_event "n" "e").2
      = none ∧
    ((EventBus.mk [("e", [⟨1, "n"⟩, ⟨2, "n"⟩])] []).remove_event
        "n" "e").1.event_funcs "e" =
      (([⟨1, "n"⟩, ⟨2, "n"⟩] : List Handler).filter
        (fun x => !(x.name == "n"))) ∧
    2 ≤ (([⟨1, "n"⟩, ⟨2, "n"⟩] : List Handler).filter
        (fun x => x.name == "n")).length :=
  have hmain := (remove_event_removes_all_matching
    (EventBus.mk [("e", [⟨1, "n"⟩, ⟨2, "n"⟩])] []) "n" "e" (by decide)).1
    ⟨⟨1, "n"⟩, by decide, ⟨2, "n"⟩, by decide, by decide, rfl, rfl⟩
  ⟨hmain.1, hmain.2.1, hmain.2.2.2⟩

theorem emit_only_eq (b : EventBus) (behave : Behave) (e : String)
    (fns : FuncNames) (args : Args) :
    b.emit_only behave e fns args =
      (((b.async_event_funcs e).filter (fun f => f.name ∈ fns.toList)).map
          (fun f => Act.launch f args) ++
        (runSyncOnly behave fns.toList args (b.event_funcs e)).1,
        (runSyncOnly behave fns.toList args (b.event_funcs e)).2) := by
  rw [EventBus.emit_only]

/-- C5: `emit_only` behaves like `emit` restricted to the handlers of the
event whose declared name is in the filter: it launches exactly the
matching background handlers, then (when no invoked handler raises)
invokes exactly the matching synchronous handlers with the same arguments,
all launches coming before any synchronous call; handlers whose name is
not in the filter are never touched. -/
theorem emit_only_filters (b : EventBus) (behave : Behave) (e : String)
    (fns : FuncNames) (args : Args)
    (hok : ∀ f ∈ b.event_funcs e, f.name ∈ fns.toList →
      behave f.id args = .ok ()) :
    b.emit_only behave e fns args =
      (((b.async_event_funcs e).filter (fun f => f.name ∈ fns.toList)).map
          (fun f => Act.launch f args) ++
        ((b.event_funcs e).filter (fun f => f.name ∈ fns.toList)).map
          (fun f => Act.call f args), none) ∧
    (∀ f : Handler, f.name ∉ fns.toList →
      ¬ invokedIn f (b.emit_only behave e fns args).1) ∧
    ∀ (i j : Nat) (hi : i < (b.emit_only behave e fns args).1.length)
      (hj : j < (b.emit_only behave e fns args).1.length),
      ((b.emit_only behave e fns args).1.get ⟨i, hi⟩).isLaunch = true →
      ((b.emit_only behave e fns args).1.get ⟨j, hj⟩).isCall = true →
      i < j := by
  have hrs := runSyncOnly_ok behave fns.toList args (b.event_funcs e) hok
  have hemit : b.emit_only behave e fns args =
      (((b.async_event_funcs e).filter (fun f => f.name ∈ fns.toList)).map
          (fun f => Act.launch f args) ++
        ((b.event_funcs e).filter (fun f => f.name ∈ fns.toList)).map
          (fun f => Act.call f args), none) := by
    rw [emit_only_eq, hrs]
  refine ⟨hemit, ?_, ?_⟩
  · intro f hfn hinv
    obtain ⟨a, ha, hah⟩ := hinv
    rw [hemit] at ha
    rcases List.mem_append.mp ha with hA | hB
    · obtain ⟨g, hg, rfl⟩ := List.mem_map.mp hA
      have hgf : g = f := hah
      have hgp := List.of_mem_filter hg
      rw [hgf] at hgp
      simp at hgp
      exact hfn hgp
    · obtain ⟨g, hg, rfl⟩ := List.mem_map.mp hB
      have hgf : g = f := hah
      have hgp := List.of_mem_filter hg
      rw [hgf] at hgp
      simp at hgp
      exact hfn hgp
  · intro i j hi hj hli hcj
    refine trace_launch_lt_call _
      ((b.async_event_funcs e).filter (fun f => f.name ∈ fns.toList)) args
      (((b.event_funcs e).filter (fun f => f.name ∈ fns.toList)).map
        (fun f => Act.call f args)) ?_ ?_ i j hi hj hli hcj
    · rw [hemit]
    · intro a ha
      obtain ⟨f, _, rfl⟩ := List.mem_map.mp ha
      rfl

/-- C5 witness: with `h1` and `h2` subscribed to `"evt"`, filtering on
`"h2"` invokes only `h2`. -/
theorem emit_only_filters_witness :
    (EventBus.mk [("evt", [⟨1, "h1"⟩, ⟨2, "h2"⟩])] []).emit_only
        (fun _ _ => .ok ()) "evt" (.single "h2") [7] =
      ([Act.call ⟨2, "h2"⟩ [7]], none) := by
  have h := (emit_only_filters (EventBus.mk [("evt", [⟨1, "h1"⟩, ⟨2, "h2"⟩])] [])
    (fun _ _ => .ok ()) "evt" (.single "h2") [7] (fun _ _ _ => rfl)).1
  rw [h]
  decide

theorem emit_after_call_ok {ρ : Type} (b : EventBus) (behave : Behave)
    (e : String) (f : Args → Except String ρ) (args : Args) (r : ρ)
    (hr : f args = .ok r) :
    b.emit_after_call behave e f args =
      ((b.emit behave e []).1,
        match (b.emit behave e []).2 with
        | none => Except.ok r
        | some msg => Except.error msg) := by
  rw [EventBus.emit_after_call, hr]
  cases hemit : b.emit behave e [] with
  | mk tr err => cases err <;> simp

/-- C6: calling the `emit_after(e)`-wrapped version of `f` first invokes
`f`; on a normal return it dispatches event `e` with no arguments and
(when no subscriber raises) returns the result of `f`; if `f` raises, the
exception propagates from the wrapped call and `e` is not dispatched. -/
theorem emit_after_wraps (ρ : Type) (b : EventBus) (behave : Behave)
    (e : String) (f : Args → Except String ρ) (args : Args) :
    (∀ msg, f args = .error msg →
      b.emit_after_call behave e f args = ([], .error msg)) ∧
    ∀ r, f args = .ok r →
      (b.emit_after_call behave e f args).1 = (b.emit behave e []).1 ∧
      ((b.emit behave e []).2 = none →
        b.emit_after_call behave e f args = ((b.emit behave e []).1, .ok r)) := by
  constructor
  · intro msg hmsg
    rw [EventBus.emit_after_call, hmsg]
  · intro r hr
    have hcall := emit_after_call_ok b behave e f args r hr
    constructor
    · rw [hcall]
    · intro hnone
      rw [hcall, hnone]

/-- C6 witness: a failing wrapped function propagates its error with no
dispatch; a succeeding one dispatches `"done"` and returns its result. -/
theorem emit_after_wraps_witness :
    (EventBus.mk [("done", [⟨1, "s"⟩])] []).emit_after_call
        (fun _ _ => .ok ()) "done" (fun _ => (.error "boom" : Except String Nat))
        [] = ([], .error "boom") ∧
    (EventBus.mk [("done", [⟨1, "s"⟩])] []).emit_after_call
        (fun _ _ => .ok ()) "done" (fun _ => (.ok 5 : Except String Nat)) [] =
      (((EventBus.mk [("done", [⟨1, "s"⟩])] []).emit
          (fun _ _ => .ok ()) "done" []).1, .ok 5) :=
  ⟨(emit_after_wraps Nat (EventBus.mk [("done", [⟨1, "s"⟩])] [])
      (fun _ _ => .ok ()) "done" (fun _ => .error "boom") []).1 "boom" rfl,
    ((emit_after_wraps Nat (EventBus.mk [("done", [⟨1, "s"⟩])] [])
      (fun _ _ => .ok ()) "done" (fun _ => .ok 5) []).2 5 rfl).2 rfl⟩
